import Mathlib

/-!
Verification development for kitchen_sink_server_node/src/server.ts.

The source file concatenates two near-duplicate MCP server variants:
the "simple" variant (an intent classifier over canned coaching states)
and the "richer" variant (a widget-serving composer).  The definitions
below are a shallow embedding of the relevant parts of that TypeScript
file: JavaScript strings become Lean `String`/`List Char`, the regexes
used by the code are compiled by hand into deterministic scanners, the
session `Map` becomes its set of keys, and the filesystem touched at
startup becomes an explicit record.
-/

/-! ## JavaScript string primitives -/

/-- The JavaScript whitespace class (the `\s` regex class and the set
trimmed by `String.prototype.trim`), by code point. -/
def isJsWs (c : Char) : Bool :=
  c.toNat == 9 || c.toNat == 10 || c.toNat == 11 || c.toNat == 12 || c.toNat == 13 ||
  c.toNat == 32 || c.toNat == 160 || c.toNat == 5760 ||
  (8192 ≤ c.toNat && c.toNat ≤ 8202) ||
  c.toNat == 8232 || c.toNat == 8233 || c.toNat == 8239 || c.toNat == 8287 ||
  c.toNat == 12288 || c.toNat == 65279

/-- ASCII lower-casing of one character, modelling
`String.prototype.toLowerCase` on the alphabet the classifier uses. -/
def asciiToLower (c : Char) : Char :=
  if 65 ≤ c.toNat ∧ c.toNat ≤ 90 then Char.ofNat (c.toNat + 32) else c

/-- `String.prototype.trim`: drop JavaScript whitespace from both ends. -/
def trimJs (l : List Char) : List Char :=
  ((l.dropWhile isJsWs).reverse.dropWhile isJsWs).reverse

/-- Does the pattern (first argument) begin the text (second argument)? -/
def startsWithCL : List Char → List Char → Bool
  | [], _ => true
  | _ :: _, [] => false
  | a :: as, b :: bs => a == b && startsWithCL as bs

/-- `String.prototype.includes`: does the pattern occur as a contiguous
substring of the text? -/
def containsCL : List Char → List Char → Bool
  | [], p => startsWithCL p []
  | c :: ts, p => startsWithCL p (c :: ts) || containsCL ts p

/-- The regex word-character class `\w` = `[A-Za-z0-9_]`. -/
def isWordChar (c : Char) : Bool :=
  (65 ≤ c.toNat && c.toNat ≤ 90) || (97 ≤ c.toNat && c.toNat ≤ 122) ||
  (48 ≤ c.toNat && c.toNat ≤ 57) || c == '_'

/-! ## Simple variant: inferState (server.ts lines 68-91) -/

def doneCL : List Char := ['d', 'o', 'n', 'e']

/-- A `\b` boundary holds before the scan position. -/
def boundaryBefore : Option Char → Bool
  | none => true
  | some c => !isWordChar c

/-- A `\b` boundary holds at the start of the remaining text. -/
def boundaryAfter : List Char → Bool
  | [] => true
  | c :: _ => !isWordChar c

/-- Scanner for the regex `\bdone\b`: the previous character (if any) is
threaded so both boundaries can be checked at each position. -/
def hasWordDoneAux : Option Char → List Char → Bool
  | _, [] => false
  | prev, c :: ts =>
    (startsWithCL doneCL (c :: ts) && boundaryBefore prev &&
      boundaryAfter ((c :: ts).drop 4)) ||
    hasWordDoneAux (some c) ts

/-- The test `/\bdone\b/.test t` from `inferState`. -/
def hasWordDone (t : List Char) : Bool := hasWordDoneAux none t

/-- The four coaching-state keys `S1`..`S4` of `stateData`
(S1 stuck, S2 moved, S3 momentum, S4 needs clarity). -/
inductive StateKey
  | S1
  | S2
  | S3
  | S4
deriving DecidableEq

def donePhrases : List String :=
  ["i did", "i wrote", "i opened", "i sent", "i renamed", "finished", "completed"]

def clarityPhrases : List String :=
  ["what should i focus", "help me decide", "which should i", "i need clarity",
   "prioritize", "priority", "what\x27s the plan"]

def momentumPhrases : List String :=
  ["what next", "next step", "keep going", "continue", "now what"]

def stuckPhrases : List String :=
  ["overwhelmed", "stuck", "procrast", "spinning", "confus", "scattered",
   "paraly", "can\x27t start", "don\x27t know where to start"]

/-- `const t = userText.toLowerCase().trim()`. -/
def normalizeInput (s : String) : List Char :=
  trimJs (s.data.map asciiToLower)

def doneSignal (t : List Char) : Bool :=
  hasWordDone t || donePhrases.any (fun n => containsCL t n.data)

def clarityRequest (t : List Char) : Bool :=
  clarityPhrases.any (fun n => containsCL t n.data)

def momentumRequest (t : List Char) : Bool :=
  momentumPhrases.any (fun n => containsCL t n.data)

def stuckSignal (t : List Char) : Bool :=
  stuckPhrases.any (fun n => containsCL t n.data)

/-- `inferState` from the simple variant. -/
def inferState (userText : String) : StateKey :=
  let t := normalizeInput userText
  if doneSignal t then .S2
  else if clarityRequest t then .S4
  else if momentumRequest t then .S3
  else if stuckSignal t then .S1
  else .S1

/-! ## HTTP routers (server.ts lines 258-317 and 733-767)

The dispatch chain after the URL has been parsed, modelled as a pure
function of (method, pathname).  The richer variant's chain has no
health or root branch. -/

def ssePath : String := "/mcp"

def postPath : String := "/mcp/messages"

/-- What the request handler does with one request. -/
inductive Routed
  | respond (status : Nat) (body : String)
  | rootInfo200
  | preflight204
  | sseHandler
  | postHandler
deriving DecidableEq

/-- The simple variant's request handler dispatch (lines 258-317). -/
def simpleRoute (method : String) (pathname : String) : Routed :=
  if method == "OPTIONS" && (pathname == ssePath || pathname == postPath) then
    .preflight204
  else if method == "GET" && pathname == "/healthz" then .respond 200 "OK"
  else if method == "GET" && pathname == "/" then .rootInfo200
  else if method == "GET" && pathname == ssePath then .sseHandler
  else if method == "POST" && pathname == postPath then .postHandler
  else .respond 404 "Not Found"

/-- The richer variant's request handler dispatch (lines 733-767). -/
def richerRoute (method : String) (pathname : String) : Routed :=
  if method == "OPTIONS" && (pathname == ssePath || pathname == postPath) then
    .preflight204
  else if method == "GET" && pathname == ssePath then .sseHandler
  else if method == "POST" && pathname == postPath then .postHandler
  else .respond 404 "Not Found"

/-! ## PORT parsing (server.ts lines 255-256 and 730-731)

`Number(process.env.PORT ?? default)` followed by a `Number.isFinite`
check.  `jsStringToNumber` models the ECMAScript StringToNumber
conversion over exact rationals: `none` stands for NaN or ±Infinity
(the only cases the `isFinite` guard distinguishes); float rounding and
overflow to Infinity are not modelled. -/

def isDigitChar (c : Char) : Bool := 48 ≤ c.toNat && c.toNat ≤ 57

/-- Digit value in a radix up to 16 (0-9, a-f, A-F). -/
def baseDigitVal (base : Nat) (c : Char) : Option Nat :=
  let n := c.toNat
  let v : Option Nat :=
    if 48 ≤ n ∧ n ≤ 57 then some (n - 48)
    else if 97 ≤ n ∧ n ≤ 102 then some (n - 87)
    else if 65 ≤ n ∧ n ≤ 70 then some (n - 55)
    else none
  match v with
  | some d => if d < base then some d else none
  | none => none

def parseNatAux (base : Nat) (acc : Nat) : List Char → Option Nat
  | [] => some acc
  | c :: cs =>
    match baseDigitVal base c with
    | some d => parseNatAux base (acc * base + d) cs
    | none => none

/-- A nonempty all-digit string in the given base, as a natural number. -/
def parseNatBase (base : Nat) : List Char → Option Nat
  | [] => none
  | c :: cs => parseNatAux base 0 (c :: cs)

/-- The value of a (known all-decimal-digit) character list. -/
def natOfDigits (l : List Char) : Nat :=
  l.foldl (fun a c => a * 10 + (c.toNat - 48)) 0

/-- An ExponentPart: empty, or e/E followed by an optional sign and digits. -/
def parseExpPart : List Char → Option Int
  | [] => some 0
  | e :: rest =>
    if e = 'e' ∨ e = 'E' then
      match rest with
      | '+' :: ds => (parseNatBase 10 ds).map Int.ofNat
      | '-' :: ds => (parseNatBase 10 ds).map (fun n => -(n : Int))
      | ds => (parseNatBase 10 ds).map Int.ofNat
    else none

/-- An unsigned StrDecimalLiteral: digits, an optional fraction, and an
optional exponent, consuming the whole input. -/
def parseUnsignedDecimal (l : List Char) : Option ℚ :=
  let ip := l.takeWhile isDigitChar
  let r1 := l.dropWhile isDigitChar
  match r1 with
  | '.' :: rest =>
    let fp := rest.takeWhile isDigitChar
    let r2 := rest.dropWhile isDigitChar
    if ip.isEmpty && fp.isEmpty then none
    else
      match parseExpPart r2 with
      | some e =>
        some (((natOfDigits ip : ℚ) + (natOfDigits fp : ℚ) / (10 : ℚ) ^ fp.length) *
          (10 : ℚ) ^ e)
      | none => none
  | _ =>
    if ip.isEmpty then none
    else
      match parseExpPart r1 with
      | some e => some ((natOfDigits ip : ℚ) * (10 : ℚ) ^ e)
      | none => none

/-- A possibly signed decimal literal; `Infinity` maps to `none` because the
caller only tests `Number.isFinite`. -/
def parseSignedDecimal (t : List Char) : Option ℚ :=
  if startsWithCL ['+'] t then
    if t.drop 1 = "Infinity".data then none else parseUnsignedDecimal (t.drop 1)
  else if startsWithCL ['-'] t then
    if t.drop 1 = "Infinity".data then none
    else (parseUnsignedDecimal (t.drop 1)).map Neg.neg
  else if t = "Infinity".data then none
  else parseUnsignedDecimal t

/-- ECMAScript `Number(string)` restricted to finite results: `none` means the
result is NaN or ±Infinity. -/
def jsStringToNumber (s : String) : Option ℚ :=
  let t := trimJs s.data
  if t.isEmpty then some 0
  else if startsWithCL ['0', 'x'] t || startsWithCL ['0', 'X'] t then
    (parseNatBase 16 (t.drop 2)).map (fun n => (n : ℚ))
  else if startsWithCL ['0', 'o'] t || startsWithCL ['0', 'O'] t then
    (parseNatBase 8 (t.drop 2)).map (fun n => (n : ℚ))
  else if startsWithCL ['0', 'b'] t || startsWithCL ['0', 'B'] t then
    (parseNatBase 2 (t.drop 2)).map (fun n => (n : ℚ))
  else parseSignedDecimal t

/-- `const portEnv = Number(process.env.PORT ?? default)` followed by
`Number.isFinite(portEnv) ? portEnv : default`; default 10000 in the simple
variant and 8000 in the richer one. -/
def portOf (defaultPort : Nat) (envPort : Option String) : ℚ :=
  match envPort with
  | none => (defaultPort : ℚ)
  | some s =>
    match jsStringToNumber s with
    | some v => v
    | none => (defaultPort : ℚ)

/-! ## Session directory and lifecycle (server.ts lines 167-253 and 661-728)

Both variants declare character-identical session logic: a
`Map<string, SessionRecord>` keyed by the transport's sessionId, an SSE
handler that inserts the record, deletes it inside the transport's
`onclose` callback, and deletes it again if `server.connect` throws; and
a POST handler that checks the query parameter before any lookup.  The
map is modelled by its key set, and the externally driven lifecycle by a
trace of events. -/

/-- The key set of the `sessions` map. -/
abbrev SessionDir := List String

/-- `sessions.set(sessionId, record)` restricted to keys. -/
def mapSet (m : SessionDir) (sid : String) : SessionDir :=
  if sid ∈ m then m else sid :: m

/-- `sessions.delete(sessionId)` restricted to keys. -/
def mapDelete (m : SessionDir) (sid : String) : SessionDir :=
  m.filter (fun k => k != sid)

/-- The events that mutate the session directory: an SSE GET whose
handshake succeeds (insert), an SSE GET whose `server.connect` throws
(insert, then delete in the catch block), and the transport's close
callback (delete). -/
inductive SessionEvent
  | connectOk (sid : String)
  | connectFail (sid : String)
  | close (sid : String)
deriving DecidableEq

/-- Effect of one event on the directory, read off `handleSseRequest`
and the `onclose` callback. -/
def sessionStep (m : SessionDir) : SessionEvent → SessionDir
  | .connectOk sid => mapSet m sid
  | .connectFail sid => mapDelete (mapSet m sid) sid
  | .close sid => mapDelete m sid

def runEvents (m : SessionDir) (es : List SessionEvent) : SessionDir :=
  es.foldl sessionStep m

/-- Outcome of `session.transport.handlePostMessage(req, res)`. -/
inductive HandlerOutcome
  | ok
  | threw (headersSent : Bool)
deriving DecidableEq

/-- Observable side effects of `handlePostMessage` other than writing the
response. -/
inductive PostAction
  | lookup (sid : String)
  | delegate (sid : String)
deriving DecidableEq

/-- The response `handlePostMessage` produces. -/
inductive PostReply
  | missingSessionId
  | unknownSession
  | delegated
  | failed500
  | failedAfterHeaders
deriving DecidableEq

/-- HTTP status written for each reply (`none` when the function itself
writes no head: delegation succeeded, or the handler threw after the
response was already started). -/
def statusOf : PostReply → Option Nat
  | .missingSessionId => some 400
  | .unknownSession => some 404
  | .delegated => none
  | .failed500 => some 500
  | .failedAfterHeaders => none

/-- `handlePostMessage` (identical in both variants): the falsy guard
`if (!sessionId)` catches both a missing parameter (`searchParams.get`
returns null) and the empty string (`?sessionId=`), answering 400 before
any lookup; otherwise look the session up, delegate, and map a thrown
error to 500 when no headers have been sent. -/
def handlePostMessage (m : SessionDir) (sessionId : Option String)
    (outcome : HandlerOutcome) : List PostAction × PostReply :=
  match sessionId with
  | none => ([], .missingSessionId)
  | some sid =>
    if sid = "" then ([], .missingSessionId)
    else if sid ∈ m then
      ([.lookup sid, .delegate sid],
        match outcome with
        | .ok => .delegated
        | .threw true => .failedAfterHeaders
        | .threw false => .failed500)
    else ([.lookup sid], .unknownSession)

/-! ## Richer variant: timebox detection (server.ts lines 593-597)

`args.situation.match(/(\d+)\s*(minutes?|mins?|hours?|hrs?)/i)` compiled
to a deterministic scanner.  At each start position the regex needs a
digit, so greedy `\d+` and `\s*` never backtrack (no unit alternative
begins with a digit or a whitespace character), and the alternatives are
tried in the regex's order with the optional `s` preferred. -/

/-- The unit alternatives in the order the regex engine tries them
(each `?` expanded greedy-first), lower-cased. -/
def unitAlts : List (List Char) :=
  [['m', 'i', 'n', 'u', 't', 'e', 's'], ['m', 'i', 'n', 'u', 't', 'e'],
   ['m', 'i', 'n', 's'], ['m', 'i', 'n'],
   ['h', 'o', 'u', 'r', 's'], ['h', 'o', 'u', 'r'],
   ['h', 'r', 's'], ['h', 'r']]

/-- Case-insensitive prefix test: the pattern (already lower-case) against
the text. -/
def ciStartsWith : List Char → List Char → Bool
  | [], _ => true
  | _ :: _, [] => false
  | p :: ps, t :: ts => (asciiToLower t == p) && ciStartsWith ps ts

/-- Match one unit alternative at the current position; returns the number
of characters consumed. -/
def matchUnit (t : List Char) : Option Nat :=
  (unitAlts.find? (fun alt => ciStartsWith alt t)).map List.length

/-- Attempt the whole pattern at the current position; returns the length
of the match. -/
def matchDurationAt (t : List Char) : Option Nat :=
  let ds := t.takeWhile isDigitChar
  if ds.isEmpty then none
  else
    let r1 := t.dropWhile isDigitChar
    let ws := r1.takeWhile isJsWs
    match matchUnit (r1.dropWhile isJsWs) with
    | some ul => some (ds.length + ws.length + ul)
    | none => none

/-- Leftmost match of the duration regex: scan start positions left to
right and return the matched substring (original case). -/
def findDuration : List Char → Option (List Char)
  | [] => none
  | c :: ts =>
    match matchDurationAt (c :: ts) with
    | some n => some ((c :: ts).take n)
    | none => findDuration ts

/-- `timeboxMatch ? timeboxMatch[0] : "30 minutes"`. -/
def timeboxOf (situation : String) : String :=
  match findDuration situation.data with
  | some m => String.mk m
  | none => "30 minutes"

/-- The spec-side reading of the pattern: some digits, optional whitespace,
then a minute/hour unit word, occurring contiguously anywhere. -/
def HasDurationPattern (t : List Char) : Prop :=
  ∃ a d w u b, t = a ++ d ++ w ++ u ++ b ∧ d ≠ [] ∧
    d.all isDigitChar = true ∧ w.all isJsWs = true ∧
    (u.map asciiToLower) ∈ unitAlts

/-! ## Richer variant: next_best_step composer (server.ts lines 585-635) -/

/-- The parsed arguments of a `next_best_step` call:
`situation` required, the other two optional. -/
structure NextBestStepArgs where
  situation : String
  constraints : Option String
  desired_outcome : Option String

/-- The default constraints sentence. -/
def defaultConstraints : String :=
  "One step only. Make it concrete, time-boxed, and low-friction."

/-- `(args.constraints ?? "").trim() || default`. -/
def resolvedConstraints (a : NextBestStepArgs) : String :=
  let c := String.mk (trimJs (a.constraints.getD "").data)
  if c = "" then defaultConstraints else c

/-- `(args.desired_outcome ?? "").trim()`. -/
def desiredTrimmed (a : NextBestStepArgs) : String :=
  String.mk (trimJs (a.desired_outcome.getD "").data)

/-- The heading `Next Best Step (${timebox}):`. -/
def headingLine (timebox : String) : String :=
  "Next Best Step (" ++ timebox ++ "):"

/-- The single hard-coded step instruction. -/
def stepText (timebox : String) : String :=
  "Set a " ++ timebox ++
    " timer and produce ONE shippable draft that moves distribution forward (not polish). Pick exactly one: (a) 5 App Store headline variants, (b) one outreach DM, or (c) a 20–30s UGC script. Write the ugly first draft without editing."

/-- The fixed done-criterion line. -/
def finishLineText : String :=
  "Done = you can paste/share the draft somewhere immediately (even if it’s not perfect)."

/-- The three fixed draft options offered inside `stepText`. -/
def optionA : String := "(a) 5 App Store headline variants"

def optionB : String := "(b) one outreach DM"

def optionC : String := "(c) a 20–30s UGC script"

/-- The `detailsLines` array before `.filter(Boolean)`: `null` entries are
`none`, and the literal `""` separators are `some ""`. -/
def rawDetailsLines (a : NextBestStepArgs) : List (Option String) :=
  [some (headingLine (timeboxOf a.situation)),
   some (stepText (timeboxOf a.situation)),
   some "",
   some ("Constraints: " ++ resolvedConstraints a),
   (if desiredTrimmed a ≠ "" then some ("Desired outcome: " ++ desiredTrimmed a)
    else none),
   some "",
   some finishLineText]

/-- `.filter(Boolean)`: drops `null` and the falsy empty string. -/
def detailsLines (a : NextBestStepArgs) : List String :=
  (rawDetailsLines a).filterMap (fun o =>
    match o with
    | none => none
    | some s => if s = "" then none else some s)

/-- `Array.prototype.join(sep)`. -/
def joinSep (sep : String) : List String → String
  | [] => ""
  | [x] => x
  | x :: y :: rest => x ++ sep ++ joinSep sep (y :: rest)

/-- `const details = detailsLines.join("\n")`. -/
def detailsOf (a : NextBestStepArgs) : String :=
  joinSep "\n" (detailsLines a)

/-- The handler's observable result: the text content, the widget payload
fields, and the `structuredContent.inputs` echo. -/
structure ToolCallResult where
  contentText : String
  message : String
  accentColor : String
  details : String
  fromTool : String
  inputsSituation : String
  inputsConstraints : String
  inputsDesiredOutcome : String

/-- The `next_best_step` branch of the richer variant's CallTool handler. -/
def nextBestStep (a : NextBestStepArgs) : ToolCallResult :=
  let d := detailsOf a
  { contentText := d
    message := "Next Best Step (one action)"
    accentColor := "#2d6cdf"
    details := d
    fromTool := "next_best_step"
    inputsSituation := a.situation
    inputsConstraints := a.constraints.getD ""
    inputsDesiredOutcome := a.desired_outcome.getD "" }

/-- The constant tail of `stepText` after the timebox. -/
def stepTail : String :=
  " timer and produce ONE shippable draft that moves distribution forward (not polish). Pick exactly one: (a) 5 App Store headline variants, (b) one outreach DM, or (c) a 20–30s UGC script. Write the ugly first draft without editing."

/-! ## Richer variant: widget HTML loading at startup (server.ts lines 387-438)

`readWidgetHtml` runs once at module load, before `httpServer.listen`:
`const widgetHtml = readWidgetHtml()` precedes the listener, so a throw
here prevents the listener from ever binding.  The filesystem is
modelled as a record of the assets directory: whether it exists and the
(name, contents) pairs `readdirSync`/`readFileSync` observe. -/

/-- `String.prototype.endsWith`. -/
def endsWithCL (p t : List Char) : Bool :=
  startsWithCL p.reverse t.reverse

/-- JavaScript default `Array.prototype.sort` comparison on strings:
lexicographic by code unit. -/
def lexLeCL : List Char → List Char → Bool
  | [], _ => true
  | _ :: _, [] => false
  | a :: as, b :: bs =>
    decide (a.toNat < b.toNat) || ((a.toNat == b.toNat) && lexLeCL as bs)

def strLeB (a b : String) : Bool := lexLeCL a.data b.data

/-- The assets directory as the richer variant's startup observes it. -/
structure AssetsFs where
  dirExists : Bool
  files : List (String × String)

/-- `readFileSync(path.join(ASSETS_DIR, name))`, as a lookup. -/
def lookupFile (fs : AssetsFs) (name : String) : Option String :=
  (fs.files.find? (fun p => p.1 == name)).map Prod.snd

def directName : String := "kitchen-sink-lite.html"

def assetsDirPath : String := "assets"

def assetsMissingMsg : String :=
  "Widget assets not found. Expected directory " ++ assetsDirPath ++
    ". Run \"pnpm run build\" before starting the server."

def widgetMissingMsg : String :=
  "Widget HTML for \"kitchen-sink-lite\" not found in " ++ assetsDirPath ++
    ". Run \"pnpm run build\" to generate the assets."

/-- One insertion step of the sort. -/
def insertLe (x : String) : List String → List String
  | [] => [x]
  | y :: ys => if strLeB x y then x :: y :: ys else y :: insertLe x ys

/-- `Array.prototype.sort()` with the default (lexicographic) comparator,
as an insertion sort: any comparison sort yields this result for the
distinct names `readdirSync` returns. -/
def sortJs : List String → List String
  | [] => []
  | x :: xs => insertLe x (sortJs xs)

/-- `readdirSync(ASSETS_DIR).filter(startsWith && endsWith).sort()`. -/
def widgetCandidates (fs : AssetsFs) : List String :=
  sortJs ((fs.files.map Prod.fst).filter
    (fun f => startsWithCL "kitchen-sink-lite-".data f.data &&
      endsWithCL ".html".data f.data))

/-- `readWidgetHtml` from the richer variant.  The final falsy guard
`if (!htmlContents)` throws both when no file was read (null) and when
the file read was empty (`""` is falsy), so empty widget HTML is also a
startup error. -/
def readWidgetHtml (fs : AssetsFs) : Except String String :=
  if fs.dirExists = false then .error assetsMissingMsg
  else
    let htmlContents : Option String :=
      match lookupFile fs directName with
      | some c => some c
      | none =>
        match (widgetCandidates fs).getLast? with
        | some fallback => lookupFile fs fallback
        | none => none
    match htmlContents with
    | some c => if c = "" then .error widgetMissingMsg else .ok c
    | none => .error widgetMissingMsg

/-- The startup sequence: `const widgetHtml = readWidgetHtml()` runs to
completion (or throws) strictly before `httpServer.listen` binds. -/
structure RicherServer where
  widgetHtml : String
  listening : Bool

def startRicherServer (fs : AssetsFs) : Except String RicherServer :=
  match readWidgetHtml fs with
  | .error e => .error e
  | .ok html => .ok { widgetHtml := html, listening := true }

/-! Helper lemmas about whitespace-only input. -/

theorem asciiToLower_of_ws (c : Char) (h : isJsWs c = true) : asciiToLower c = c := by
  unfold asciiToLower
  split
  · rename_i hr
    exfalso
    simp only [isJsWs, Bool.or_eq_true, beq_iff_eq, Bool.and_eq_true,
      decide_eq_true_eq] at h
    omega
  · rfl

theorem trimJs_of_all_ws (l : List Char) (h : ∀ c ∈ l, isJsWs c = true) :
    trimJs l = [] := by
  unfold trimJs
  have hd : l.dropWhile isJsWs = [] := by
    rw [List.dropWhile_eq_nil_iff]
    exact h
  rw [hd]
  simp

theorem normalize_of_all_ws (s : String) (h : s.data.all isJsWs = true) :
    normalizeInput s = [] := by
  unfold normalizeInput
  apply trimJs_of_all_ws
  intro c hc
  rcases List.mem_map.mp hc with ⟨d, hd, hcd⟩
  have hws : isJsWs d = true := List.all_eq_true.mp h d hd
  rw [← hcd, asciiToLower_of_ws d hws]
  exact hws

/-- Claim C1: `inferState` lower-cases and trims its input, tests the four
keyword/phrase sets in the fixed priority order completion > clarity-request >
momentum-request > overwhelm, and returns the state of the first matching set;
when no earlier set distinguishes the input (including the empty or
whitespace-only case) it returns Stuck (`S1`); in particular any input whose
normalization carries a completion signal classifies as Moved (`S2`) no matter
which other sets also match. -/
theorem c1_inferState_priority (s : String) :
    (doneSignal (normalizeInput s) = true → inferState s = .S2) ∧
    (doneSignal (normalizeInput s) = false → clarityRequest (normalizeInput s) = true →
      inferState s = .S4) ∧
    (doneSignal (normalizeInput s) = false → clarityRequest (normalizeInput s) = false →
      momentumRequest (normalizeInput s) = true → inferState s = .S3) ∧
    (doneSignal (normalizeInput s) = false → clarityRequest (normalizeInput s) = false →
      momentumRequest (normalizeInput s) = false → inferState s = .S1) ∧
    (s.data.all isJsWs = true → inferState s = .S1) := by
  refine ⟨?_, ?_, ?_, ?_, ?_⟩
  · intro h1
    simp [inferState, h1]
  · intro h1 h2
    simp [inferState, h1, h2]
  · intro h1 h2 h3
    simp [inferState, h1, h2, h3]
  · intro h1 h2 h3
    by_cases h4 : stuckSignal (normalizeInput s) = true
    · simp [inferState, h1, h2, h3, h4]
    · simp [inferState, h1, h2, h3]
  · intro hws
    have hn : normalizeInput s = [] := normalize_of_all_ws s hws
    simp only [inferState, hn]
    decide

/-- Claim C1 witness: a concrete input containing both a completion phrase and
an overwhelm phrase classifies as Moved, and a whitespace-only input
classifies as Stuck. -/
theorem c1_inferState_priority_witness :
    inferState "I SENT the email but I am overwhelmed and stuck" = .S2 ∧
    inferState "   " = .S1 := by
  constructor
  · exact (c1_inferState_priority "I SENT the email but I am overwhelmed and stuck").1
      (by decide)
  · exact (c1_inferState_priority "   ").2.2.2.2 (by decide)

/-- Claim C9: the completion keyword `done` only counts when it occurs as a
whole word (the `\bdone\b` regex), so `"abandoned"` — which contains `done`
as a plain substring — does not classify as Moved and falls to Stuck, while
every other completion phrase matches as a substring anywhere in the
lower-cased trimmed input and forces Moved. -/
theorem c9_done_word_boundary :
    (∀ t : List Char,
      doneSignal t = (hasWordDone t || donePhrases.any (fun n => containsCL t n.data))) ∧
    containsCL (normalizeInput "abandoned") doneCL = true ∧
    hasWordDone (normalizeInput "abandoned") = false ∧
    inferState "abandoned" = .S1 ∧
    inferState "well done!" = .S2 ∧
    (∀ p ∈ donePhrases, ∀ t : String,
      containsCL (normalizeInput t) p.data = true → inferState t = .S2) := by
  refine ⟨fun _ => rfl, by decide, by decide, by decide, by decide, ?_⟩
  intro p hp t hc
  have ha : donePhrases.any (fun n => containsCL (normalizeInput t) n.data) = true :=
    List.any_eq_true.mpr ⟨p, hp, hc⟩
  have hd : doneSignal (normalizeInput t) = true := by
    simp [doneSignal, ha]
  simp [inferState, hd]

/-- Claim C9 witness: the substring-matching branch at the concrete phrase
`"finished"` inside a longer mixed-case input. -/
theorem c9_done_word_boundary_witness : inferState "just FINISHED it" = .S2 :=
  c9_done_word_boundary.2.2.2.2.2 "finished" (by decide) "just FINISHED it" (by decide)

/-- Claim C7 counterexample: the claim says both variants answer GET /healthz
with 200 "OK", but the richer variant's request handler has no health branch
and falls through to 404 "Not Found". -/
theorem c7_healthz_counterexample :
    richerRoute "GET" "/healthz" = .respond 404 "Not Found" ∧
    Routed.respond 404 "Not Found" ≠ Routed.respond 200 "OK" := by
  constructor
  · rfl
  · decide

/-- Claim C7 (amended): only the simple variant answers GET /healthz with
status 200 and body "OK"; the richer variant's router answers 404 "Not
Found" because it has no health branch. -/
theorem c7_healthz_amended :
    simpleRoute "GET" "/healthz" = .respond 200 "OK" ∧
    richerRoute "GET" "/healthz" = .respond 404 "Not Found" := by
  exact ⟨rfl, rfl⟩

/-! Helper lemmas about digit strings and `Number`. -/

theorem takeWhile_eq_self_of_all {p : Char → Bool} {l : List Char}
    (h : ∀ c ∈ l, p c = true) : l.takeWhile p = l := by
  induction l with
  | nil => rfl
  | cons c cs ih =>
    simp [List.takeWhile_cons, h c (by simp), ih (fun d hd => h d (by simp [hd]))]

theorem dropWhile_eq_nil_of_all {p : Char → Bool} {l : List Char}
    (h : ∀ c ∈ l, p c = true) : l.dropWhile p = [] := by
  induction l with
  | nil => rfl
  | cons c cs ih =>
    simp [List.dropWhile_cons, h c (by simp), ih (fun d hd => h d (by simp [hd]))]

theorem dropWhile_eq_self_of_none {p : Char → Bool} {l : List Char}
    (h : ∀ c ∈ l, p c = false) : l.dropWhile p = l := by
  cases l with
  | nil => rfl
  | cons c cs => simp [List.dropWhile_cons, h c (by simp)]

theorem trimJs_eq_self {l : List Char} (h : ∀ c ∈ l, isJsWs c = false) :
    trimJs l = l := by
  unfold trimJs
  rw [dropWhile_eq_self_of_none h,
    dropWhile_eq_self_of_none (fun c hc => h c (List.mem_reverse.mp hc)),
    List.reverse_reverse]

theorem digit_not_ws {c : Char} (h : isDigitChar c = true) : isJsWs c = false := by
  simp only [isDigitChar, Bool.and_eq_true, decide_eq_true_eq] at h
  rcases Bool.eq_false_or_eq_true (isJsWs c) with ht | hf
  · exfalso
    simp only [isJsWs, Bool.or_eq_true, beq_iff_eq, Bool.and_eq_true,
      decide_eq_true_eq] at ht
    omega
  · exact hf

theorem beq_digit_false {a d : Char} (hd : isDigitChar d = true)
    (ha : 57 < a.toNat) : (a == d) = false := by
  simp only [isDigitChar, Bool.and_eq_true, decide_eq_true_eq] at hd
  rw [beq_eq_false_iff_ne]
  intro he
  subst he
  omega

theorem jsStringToNumber_digits (s : String) (hne : s.data ≠ [])
    (hall : s.data.all isDigitChar = true) :
    jsStringToNumber s = some ((natOfDigits s.data : ℚ)) := by
  have hall' : ∀ c ∈ s.data, isDigitChar c = true := List.all_eq_true.mp hall
  have htrim : trimJs s.data = s.data :=
    trimJs_eq_self (fun c hc => digit_not_ws (hall' c hc))
  obtain ⟨c, cs, hdata⟩ := List.exists_cons_of_ne_nil hne
  have hie : s.data.isEmpty = false := by rw [hdata]; rfl
  have hup : parseUnsignedDecimal s.data = some ((natOfDigits s.data : ℚ)) := by
    unfold parseUnsignedDecimal
    rw [takeWhile_eq_self_of_all hall', dropWhile_eq_nil_of_all hall']
    simp only [hie, Bool.false_eq_true, if_false, parseExpPart]
    rw [zpow_zero, mul_one]
  have hsign : parseSignedDecimal s.data = some ((natOfDigits s.data : ℚ)) := by
    have hc : isDigitChar c = true := hall' c (by rw [hdata]; simp)
    unfold parseSignedDecimal
    rw [hdata]
    have hplus : startsWithCL ['+'] (c :: cs) = false := by
      simp [startsWithCL, beq_digit_false hc]
      exact fun he => by
        subst he
        simp [isDigitChar] at hc
    have hminus : startsWithCL ['-'] (c :: cs) = false := by
      simp [startsWithCL]
      exact fun he => by
        subst he
        simp [isDigitChar] at hc
    have hinf : (c :: cs) ≠ "Infinity".data := by
      intro he
      have : c = 'I' := by
        have := congrArg (fun l => l.head?) he
        simpa using this
      subst this
      simp [isDigitChar] at hc
    rw [hplus, hminus]
    simp only [Bool.false_eq_true, if_false]
    rw [if_neg hinf, ← hdata]
    exact hup
  unfold jsStringToNumber
  rw [htrim]
  rw [if_neg (by simp [hie])]
  have hc : isDigitChar c = true := hall' c (by rw [hdata]; simp)
  have hx : ∀ a : Char, 57 < a.toNat → startsWithCL ['0', a] s.data = false := by
    intro a ha
    rw [hdata]
    cases cs with
    | nil => simp [startsWithCL]
    | cons d ds =>
      have hdg : isDigitChar d = true := hall' d (by rw [hdata]; simp)
      simp [startsWithCL, beq_digit_false hdg ha]
  rw [hx 'x' (by decide), hx 'X' (by decide), hx 'o' (by decide), hx 'O' (by decide),
    hx 'b' (by decide), hx 'B' (by decide)]
  simpa using hsign

/-- Claim C8 counterexample: the empty string is not a numeric integer
string, yet `Number("") = 0` is finite, so with `PORT=""` both variants
listen on port 0 instead of their fixed defaults (10000 / 8000). -/
theorem c8_port_counterexample :
    portOf 10000 (some "") = 0 ∧ portOf 8000 (some "") = 0 ∧
    (0 : ℚ) ≠ 10000 ∧ (0 : ℚ) ≠ 8000 := by
  refine ⟨rfl, rfl, by norm_num, by norm_num⟩

/-- Claim C8 (amended): if PORT is unset, or if `Number(PORT)` is NaN or
infinite (which covers every non-numeric string except the empty and
whitespace-only strings), the server listens on the fixed per-variant
default; if `Number(PORT)` is a finite value the server listens on that
value — in particular a nonempty decimal-digit string gives its integer
value, and the empty string gives port 0, not the default. -/
theorem c8_port_amended (d : Nat) (env : Option String) :
    (env = none → portOf d env = d) ∧
    (∀ s, env = some s → jsStringToNumber s = none → portOf d env = d) ∧
    (∀ s v, env = some s → jsStringToNumber s = some v → portOf d env = v) ∧
    (∀ s, env = some s → s.data ≠ [] → s.data.all isDigitChar = true →
      portOf d env = (natOfDigits s.data : ℚ)) ∧
    portOf d (some "") = 0 := by
  refine ⟨?_, ?_, ?_, ?_, rfl⟩
  · intro he
    rw [he]
    rfl
  · intro s he hn
    rw [he]
    simp [portOf, hn]
  · intro s v he hv
    rw [he]
    simp [portOf, hv]
  · intro s he hne hall
    rw [he]
    simp [portOf, jsStringToNumber_digits s hne hall]

/-- Claim C8 witness: with `PORT=3000` the simple variant listens on 3000,
unset PORT gives the richer default 8000, and the non-numeric `PORT=abc`
gives the simple default 10000. -/
theorem c8_port_amended_witness :
    portOf 10000 (some "3000") = 3000 ∧ portOf 8000 none = 8000 ∧
    portOf 10000 (some "abc") = 10000 := by
  refine ⟨?_, ?_, ?_⟩
  · have h := (c8_port_amended 10000 (some "3000")).2.2.2.1 "3000" rfl
      (by decide) (by decide)
    have hv : natOfDigits "3000".data = 3000 := rfl
    rw [h, hv]
    norm_num
  · exact (c8_port_amended 8000 none).1 rfl
  · exact (c8_port_amended 10000 (some "abc")).2.1 "abc" rfl (by rfl)

/-! Session-directory lemmas. -/

theorem mem_mapSet {m : SessionDir} {sid x : String} :
    x ∈ mapSet m sid ↔ x = sid ∨ x ∈ m := by
  unfold mapSet
  split
  · rename_i hmem
    constructor
    · exact Or.inr
    · rintro (rfl | hx)
      · exact hmem
      · exact hx
  · simp [List.mem_cons]

theorem mem_mapDelete {m : SessionDir} {sid x : String} :
    x ∈ mapDelete m sid ↔ x ∈ m ∧ x ≠ sid := by
  unfold mapDelete
  simp [List.mem_filter]

theorem not_mem_mapDelete_self (m : SessionDir) (sid : String) :
    sid ∉ mapDelete m sid := by
  rw [mem_mapDelete]
  rintro ⟨-, h⟩
  exact h rfl

/-- A sessionId never re-inserted by a successful connect stays out of
the directory. -/
theorem not_mem_runEvents {sid : String} :
    ∀ (es : List SessionEvent) (m : SessionDir), sid ∉ m →
      (∀ e ∈ es, e ≠ .connectOk sid) → sid ∉ runEvents m es := by
  intro es
  induction es with
  | nil => intro m hm _; exact hm
  | cons e rest ih =>
    intro m hm hfresh
    have hrest : ∀ x ∈ rest, x ≠ SessionEvent.connectOk sid :=
      fun x hx => hfresh x (by simp [hx])
    have hstep : sid ∉ sessionStep m e := by
      cases e with
      | connectOk s =>
        have hne : s ≠ sid := by
          intro he
          exact hfresh (.connectOk s) (by simp) (by rw [he])
        simp only [sessionStep]
        rw [mem_mapSet]
        rintro (rfl | hx)
        · exact hne rfl
        · exact hm hx
      | connectFail s =>
        by_cases hs : s = sid
        · subst hs
          exact not_mem_mapDelete_self _ _
        · simp only [sessionStep]
          rw [mem_mapDelete, mem_mapSet]
          rintro ⟨rfl | hx, -⟩
          · exact hs rfl
          · exact hm hx
      | close s =>
        simp only [sessionStep]
        rw [mem_mapDelete]
        rintro ⟨hx, -⟩
        exact hm hx
    exact ih (sessionStep m e) hstep hrest

/-- Every key in the directory traces back to a successful connect with no
later close or failed connect for that key. -/
theorem runEvents_mem_origin (tr : List SessionEvent) (sid : String)
    (h : sid ∈ runEvents [] tr) :
    ∃ a b, tr = a ++ .connectOk sid :: b ∧
      ∀ e ∈ b, e ≠ .close sid ∧ e ≠ .connectFail sid := by
  induction tr using List.reverseRecOn with
  | nil => exact absurd h (by simp [runEvents])
  | append_singleton tr e ih =>
    rw [runEvents, List.foldl_append] at h
    cases e with
    | connectOk s =>
      rcases mem_mapSet.mp h with rfl | hm
      · exact ⟨tr, [], rfl, by simp⟩
      · rcases ih hm with ⟨a, b, rfl, hb⟩
        refine ⟨a, b ++ [.connectOk s], by simp, ?_⟩
        intro x hx
        rcases List.mem_append.mp hx with hxb | hxe
        · exact hb x hxb
        · have : x = SessionEvent.connectOk s := by simpa using hxe
          subst this
          exact ⟨by simp, by simp⟩
    | connectFail s =>
      rcases mem_mapDelete.mp h with ⟨hin, hne⟩
      rcases mem_mapSet.mp hin with rfl | hm
      · exact absurd rfl hne
      · rcases ih hm with ⟨a, b, rfl, hb⟩
        refine ⟨a, b ++ [.connectFail s], by simp, ?_⟩
        intro x hx
        rcases List.mem_append.mp hx with hxb | hxe
        · exact hb x hxb
        · have : x = SessionEvent.connectFail s := by simpa using hxe
          subst this
          refine ⟨by simp, ?_⟩
          simp only [ne_eq, SessionEvent.connectFail.injEq]
          intro he
          exact hne he.symm
    | close s =>
      rcases mem_mapDelete.mp h with ⟨hin, hne⟩
      rcases ih hin with ⟨a, b, rfl, hb⟩
      refine ⟨a, b ++ [.close s], by simp, ?_⟩
      intro x hx
      rcases List.mem_append.mp hx with hxb | hxe
      · exact hb x hxb
      · have : x = SessionEvent.close s := by simpa using hxe
        subst this
        refine ⟨?_, by simp⟩
        simp only [ne_eq, SessionEvent.close.injEq]
        intro he
        exact hne he.symm

/-- Claim C2: every key in the session directory belongs to a transport whose
close has not fired (it was inserted by a connect with no later close or
connect failure for that id); once close fires — or the connect handshake
fails — the entry is deleted, and as long as that (nonempty,
transport-generated) id is never re-issued by a later successful connect,
any POST bearing it is answered 404 Unknown session: the session is never
resurrected. -/
theorem c2_session_directory_invariant :
    (∀ (tr : List SessionEvent) (sid : String), sid ∈ runEvents [] tr →
      ∃ a b, tr = a ++ .connectOk sid :: b ∧
        ∀ e ∈ b, e ≠ .close sid ∧ e ≠ .connectFail sid) ∧
    (∀ (pre post : List SessionEvent) (sid : String) (outcome : HandlerOutcome),
      sid ≠ "" →
      (∀ e ∈ post, e ≠ .connectOk sid) →
      sid ∉ runEvents [] (pre ++ .close sid :: post) ∧
      handlePostMessage (runEvents [] (pre ++ .close sid :: post)) (some sid) outcome =
        ([.lookup sid], .unknownSession) ∧
      statusOf .unknownSession = some 404) ∧
    (∀ (pre post : List SessionEvent) (sid : String) (outcome : HandlerOutcome),
      sid ≠ "" →
      (∀ e ∈ post, e ≠ .connectOk sid) →
      sid ∉ runEvents [] (pre ++ .connectFail sid :: post) ∧
      handlePostMessage (runEvents [] (pre ++ .connectFail sid :: post)) (some sid) outcome =
        ([.lookup sid], .unknownSession)) := by
  refine ⟨runEvents_mem_origin, ?_, ?_⟩
  · intro pre post sid outcome hsid hfresh
    have hrun : runEvents [] (pre ++ .close sid :: post) =
        runEvents (sessionStep (runEvents [] pre) (.close sid)) post := by
      simp [runEvents, List.foldl_append]
    have hnot : sid ∉ runEvents [] (pre ++ .close sid :: post) := by
      rw [hrun]
      exact not_mem_runEvents post _ (not_mem_mapDelete_self _ _) hfresh
    refine ⟨hnot, ?_, rfl⟩
    simp [handlePostMessage, hsid, hnot]
  · intro pre post sid outcome hsid hfresh
    have hrun : runEvents [] (pre ++ .connectFail sid :: post) =
        runEvents (sessionStep (runEvents [] pre) (.connectFail sid)) post := by
      simp [runEvents, List.foldl_append]
    have hnot : sid ∉ runEvents [] (pre ++ .connectFail sid :: post) := by
      rw [hrun]
      exact not_mem_runEvents post _ (not_mem_mapDelete_self _ _) hfresh
    refine ⟨hnot, ?_⟩
    simp [handlePostMessage, hsid, hnot]

/-- Claim C2 witness: after session "a" connects and closes while "b" stays
connected, a POST for "a" is answered 404 Unknown session while "b" remains
in the directory. -/
theorem c2_session_directory_invariant_witness :
    handlePostMessage
        (runEvents [] ([.connectOk "a"] ++ .close "a" :: [.connectOk "b"]))
        (some "a") .ok = ([.lookup "a"], .unknownSession) ∧
    "b" ∈ runEvents [] ([.connectOk "a"] ++ .close "a" :: [.connectOk "b"]) := by
  constructor
  · exact (c2_session_directory_invariant.2.1 [.connectOk "a"] [.connectOk "b"]
      "a" .ok (by decide) (by decide)).2.1
  · decide

/-- Claim C3 counterexample: the claim says a present-but-unknown sessionId
is answered 404, but the falsy guard `if (!sessionId)` also catches the
reachable request `?sessionId=` (where `searchParams.get` returns the empty
string): with the empty string present and not a key of the directory, the
code answers 400 Missing sessionId with no lookup, not 404. -/
theorem c3_handlePostMessage_counterexample :
    handlePostMessage ["s1"] (some "") .ok = ([], .missingSessionId) ∧
    statusOf .missingSessionId = some 400 ∧
    PostReply.missingSessionId ≠ PostReply.unknownSession := by
  exact ⟨rfl, rfl, by decide⟩

/-- Claim C3 (amended): `handlePostMessage` (identical in both variants)
answers 400 without performing any session lookup when the sessionId query
parameter is absent or empty (the falsy `if (!sessionId)` guard), answers
404 Unknown session when the id is nonempty but not a key of the map, and
otherwise delegates to that session's transport handler, turning a thrown
error into a 500 response exactly when no response headers have been sent
yet. -/
theorem c3_handlePostMessage_dispatch (m : SessionDir) (sessionId : Option String)
    (outcome : HandlerOutcome) :
    (sessionId = none →
      handlePostMessage m sessionId outcome = ([], .missingSessionId) ∧
      statusOf .missingSessionId = some 400) ∧
    (sessionId = some "" →
      handlePostMessage m sessionId outcome = ([], .missingSessionId)) ∧
    (∀ sid, sessionId = some sid → sid ≠ "" → sid ∉ m →
      handlePostMessage m sessionId outcome = ([.lookup sid], .unknownSession) ∧
      statusOf .unknownSession = some 404) ∧
    (∀ sid, sessionId = some sid → sid ≠ "" → sid ∈ m →
      (handlePostMessage m sessionId outcome).1 = [.lookup sid, .delegate sid] ∧
      (outcome = .ok → (handlePostMessage m sessionId outcome).2 = .delegated) ∧
      (∀ hs, outcome = .threw hs →
        ((handlePostMessage m sessionId outcome).2 = .failed500 ↔ hs = false)) ∧
      statusOf .failed500 = some 500) := by
  refine ⟨?_, ?_, ?_, ?_⟩
  · rintro rfl
    exact ⟨rfl, rfl⟩
  · rintro rfl
    rfl
  · rintro sid rfl hsid hnot
    refine ⟨?_, rfl⟩
    simp [handlePostMessage, hsid, hnot]
  · rintro sid rfl hsid hmem
    refine ⟨?_, ?_, ?_, rfl⟩
    · simp [handlePostMessage, hsid, hmem]
    · rintro rfl
      simp [handlePostMessage, hsid, hmem]
    · rintro hs rfl
      cases hs <;> simp [handlePostMessage, hsid, hmem]

/-- Claim C3 witness: the four dispatch outcomes at a concrete directory,
including the empty-string sessionId answered 400 with no lookup. -/
theorem c3_handlePostMessage_dispatch_witness :
    handlePostMessage ["s1"] none .ok = ([], .missingSessionId) ∧
    handlePostMessage ["s1"] (some "") .ok = ([], .missingSessionId) ∧
    handlePostMessage ["s1"] (some "s2") .ok = ([.lookup "s2"], .unknownSession) ∧
    (handlePostMessage ["s1"] (some "s1") (.threw false)).2 = .failed500 := by
  refine ⟨((c3_handlePostMessage_dispatch ["s1"] none .ok).1 rfl).1,
    (c3_handlePostMessage_dispatch ["s1"] (some "") .ok).2.1 rfl,
    ((c3_handlePostMessage_dispatch ["s1"] (some "s2") .ok).2.2.1 "s2" rfl
      (by decide) (by decide)).1, ?_⟩
  have h := ((c3_handlePostMessage_dispatch ["s1"] (some "s1")
      (.threw false)).2.2.2 "s1" rfl (by decide) (by decide)).2.2.1 false rfl
  exact h.mpr rfl

/-! Lemmas about the duration scanner. -/

theorem ws_not_digit {c : Char} (h : isJsWs c = true) : isDigitChar c = false := by
  rcases Bool.eq_false_or_eq_true (isDigitChar c) with ht | hf
  · exfalso
    rw [digit_not_ws ht] at h
    exact Bool.false_ne_true h
  · exact hf

theorem takeWhile_append_of_all {p : Char → Bool} {l r : List Char}
    (h : ∀ c ∈ l, p c = true) :
    (l ++ r).takeWhile p = l ++ r.takeWhile p := by
  induction l with
  | nil => rfl
  | cons c cs ih =>
    simp [List.takeWhile_cons, h c (by simp), ih (fun d hd => h d (by simp [hd]))]

theorem dropWhile_append_of_all {p : Char → Bool} {l r : List Char}
    (h : ∀ c ∈ l, p c = true) :
    (l ++ r).dropWhile p = r.dropWhile p := by
  induction l with
  | nil => rfl
  | cons c cs ih =>
    simp [List.dropWhile_cons, h c (by simp), ih (fun d hd => h d (by simp [hd]))]

theorem startsWith_append_self (p y : List Char) :
    startsWithCL p (p ++ y) = true := by
  induction p with
  | nil => rfl
  | cons c cs ih => simp [startsWithCL, ih]

theorem containsCL_of_startsWith (x t p : List Char)
    (h : startsWithCL p t = true) : containsCL (x ++ t) p = true := by
  induction x with
  | nil =>
    cases t with
    | nil => exact h
    | cons c ts => simp [containsCL, h]
  | cons c cs ih =>
    have hred : containsCL (c :: (cs ++ t)) p =
        (startsWithCL p (c :: (cs ++ t)) || containsCL (cs ++ t) p) := rfl
    simp only [List.cons_append, hred, Bool.or_eq_true]
    exact Or.inr ih

/-- A substring occurrence gives `containsCL`. -/
theorem containsCL_of_middle (x p y : List Char) :
    containsCL (x ++ p ++ y) p = true := by
  rw [List.append_assoc]
  exact containsCL_of_startsWith x (p ++ y) p (startsWith_append_self p y)

theorem ciStartsWith_map_self (u b : List Char) :
    ciStartsWith (u.map asciiToLower) (u ++ b) = true := by
  induction u with
  | nil => rfl
  | cons c cs ih => simp [ciStartsWith, ih]

theorem ciStartsWith_take {alt : List Char} :
    ∀ {t : List Char}, ciStartsWith alt t = true →
      (t.take alt.length).map asciiToLower = alt := by
  induction alt with
  | nil => intro t _; simp
  | cons p ps ih =>
    intro t h
    cases t with
    | nil => exact absurd h (by simp [ciStartsWith])
    | cons c ts =>
      simp only [ciStartsWith, Bool.and_eq_true, beq_iff_eq] at h
      simp [List.take_succ_cons, h.1, ih h.2]

theorem ciStartsWith_le_length {alt : List Char} :
    ∀ {t : List Char}, ciStartsWith alt t = true → alt.length ≤ t.length := by
  induction alt with
  | nil => intro t _; simp
  | cons p ps ih =>
    intro t h
    cases t with
    | nil => exact absurd h (by simp [ciStartsWith])
    | cons c ts =>
      simp only [ciStartsWith, Bool.and_eq_true] at h
      simpa using ih h.2

theorem alt_head {alt : List Char} (h : alt ∈ unitAlts) :
    alt.head? = some 'm' ∨ alt.head? = some 'h' := by
  fin_cases h <;> simp

theorem toLower_mh_not_digit_ws (c : Char)
    (h : asciiToLower c = 'm' ∨ asciiToLower c = 'h') :
    isDigitChar c = false ∧ isJsWs c = false := by
  by_cases hr : 65 ≤ c.toNat ∧ c.toNat ≤ 90
  · constructor
    · rcases Bool.eq_false_or_eq_true (isDigitChar c) with ht | hf
      · exfalso
        simp only [isDigitChar, Bool.and_eq_true, decide_eq_true_eq] at ht
        omega
      · exact hf
    · rcases Bool.eq_false_or_eq_true (isJsWs c) with ht | hf
      · exfalso
        simp only [isJsWs, Bool.or_eq_true, beq_iff_eq, Bool.and_eq_true,
          decide_eq_true_eq] at ht
        omega
      · exact hf
  · have hc : asciiToLower c = c := by
      unfold asciiToLower
      rw [if_neg hr]
    rw [hc] at h
    rcases h with rfl | rfl
    · exact ⟨rfl, rfl⟩
    · exact ⟨rfl, rfl⟩

theorem unit_head_decomp {u : List Char} (h : (u.map asciiToLower) ∈ unitAlts) :
    ∃ c cs, u = c :: cs ∧ isDigitChar c = false ∧ isJsWs c = false := by
  rcases alt_head h with hm | hm <;>
  · cases u with
    | nil => simp at hm
    | cons c cs =>
      simp only [List.map_cons, List.head?_cons, Option.some.injEq] at hm
      rcases toLower_mh_not_digit_ws c (by tauto) with ⟨h1, h2⟩
      exact ⟨c, cs, rfl, h1, h2⟩

theorem matchUnit_isSome_of_unit (u b : List Char)
    (hu : (u.map asciiToLower) ∈ unitAlts) :
    (matchUnit (u ++ b)).isSome = true := by
  unfold matchUnit
  have hsome : (unitAlts.find? (fun alt => ciStartsWith alt (u ++ b))).isSome = true :=
    List.find?_isSome.mpr ⟨u.map asciiToLower, hu, ciStartsWith_map_self u b⟩
  obtain ⟨alt, halt⟩ := Option.isSome_iff_exists.mp hsome
  rw [halt]
  rfl

theorem matchDurationAt_isSome_of_pattern (d w u b : List Char) (hd : d ≠ [])
    (hdall : d.all isDigitChar = true) (hwall : w.all isJsWs = true)
    (hu : (u.map asciiToLower) ∈ unitAlts) :
    (matchDurationAt (d ++ (w ++ (u ++ b)))).isSome = true := by
  obtain ⟨c, cs, rfl, hcd, hcw⟩ := unit_head_decomp hu
  have hd' : ∀ x ∈ d, isDigitChar x = true := List.all_eq_true.mp hdall
  have hw' : ∀ x ∈ w, isJsWs x = true := List.all_eq_true.mp hwall
  have htk : (d ++ (w ++ (c :: cs ++ b))).takeWhile isDigitChar = d := by
    rw [takeWhile_append_of_all hd']
    have h2 : (w ++ (c :: cs ++ b)).takeWhile isDigitChar = [] := by
      cases w with
      | nil => simp [List.takeWhile_cons, hcd]
      | cons w0 ws' =>
        have hw0 : isDigitChar w0 = false := ws_not_digit (hw' w0 (by simp))
        simp [List.takeWhile_cons, hw0]
    rw [h2, List.append_nil]
  have hdk : (d ++ (w ++ (c :: cs ++ b))).dropWhile isDigitChar =
      w ++ (c :: cs ++ b) := by
    rw [dropWhile_append_of_all hd']
    cases w with
    | nil => simp [List.dropWhile_cons, hcd]
    | cons w0 ws' =>
      have hw0 : isDigitChar w0 = false := ws_not_digit (hw' w0 (by simp))
      simp [List.dropWhile_cons, hw0]
  have hws : (w ++ (c :: cs ++ b)).dropWhile isJsWs = c :: cs ++ b := by
    rw [dropWhile_append_of_all hw']
    simp [List.dropWhile_cons, hcw]
  have hde : d.isEmpty = false := by
    cases d with
    | nil => exact absurd rfl hd
    | cons x xs => rfl
  have hmu : (matchUnit (c :: cs ++ b)).isSome = true :=
    matchUnit_isSome_of_unit (c :: cs) b hu
  obtain ⟨ul, hul⟩ := Option.isSome_iff_exists.mp hmu
  simp only [matchDurationAt, htk, hdk, hws, hde, Bool.false_eq_true, if_false, hul]
  rfl

theorem findDuration_isSome_append :
    ∀ (a rest : List Char), (matchDurationAt rest).isSome = true →
      (findDuration (a ++ rest)).isSome = true := by
  intro a
  induction a with
  | nil =>
    intro rest h
    cases rest with
    | nil => exact absurd h (by decide)
    | cons c ts =>
      obtain ⟨n, hn⟩ := Option.isSome_iff_exists.mp h
      simp [findDuration, hn]
  | cons x xs ih =>
    intro rest h
    rw [List.cons_append]
    cases hm : matchDurationAt (x :: (xs ++ rest)) with
    | some n => simp [findDuration, hm]
    | none =>
      have : findDuration (x :: (xs ++ rest)) = findDuration (xs ++ rest) := by
        simp [findDuration, hm]
      rw [this]
      exact ih rest h

theorem matchDurationAt_some_decomp (t : List Char) (n : Nat)
    (h : matchDurationAt t = some n) :
    ∃ d w u r, t = d ++ (w ++ (u ++ r)) ∧ d ≠ [] ∧ d.all isDigitChar = true ∧
      w.all isJsWs = true ∧ (u.map asciiToLower) ∈ unitAlts ∧
      n = d.length + w.length + u.length := by
  simp only [matchDurationAt] at h
  split_ifs at h with hie
  cases hmu : matchUnit ((t.dropWhile isDigitChar).dropWhile isJsWs) with
  | none => rw [hmu] at h; cases h
  | some ul =>
    rw [hmu] at h
    have hn : n = (t.takeWhile isDigitChar).length +
        ((t.dropWhile isDigitChar).takeWhile isJsWs).length + ul := by
      have := Option.some.inj h
      omega
    obtain ⟨alt, hfind⟩ : ∃ alt,
        (unitAlts.find? (fun alt => ciStartsWith alt
          ((t.dropWhile isDigitChar).dropWhile isJsWs))) = some alt := by
      unfold matchUnit at hmu
      cases hf : unitAlts.find? (fun alt => ciStartsWith alt
          ((t.dropWhile isDigitChar).dropWhile isJsWs)) with
      | none => rw [hf] at hmu; cases hmu
      | some alt => exact ⟨alt, rfl⟩
    have hul : ul = alt.length := by
      unfold matchUnit at hmu
      rw [hfind] at hmu
      exact (Option.some.inj hmu).symm
    have halt : alt ∈ unitAlts := List.mem_of_find?_eq_some hfind
    have hci : ciStartsWith alt ((t.dropWhile isDigitChar).dropWhile isJsWs) =
        true := by
      have := List.find?_some hfind
      simpa using this
    refine ⟨t.takeWhile isDigitChar,
      (t.dropWhile isDigitChar).takeWhile isJsWs,
      ((t.dropWhile isDigitChar).dropWhile isJsWs).take alt.length,
      ((t.dropWhile isDigitChar).dropWhile isJsWs).drop alt.length,
      ?_, ?_, List.all_takeWhile, List.all_takeWhile, ?_, ?_⟩
    · rw [List.take_append_drop, List.takeWhile_append_dropWhile,
        List.takeWhile_append_dropWhile]
    · intro he
      rw [he] at hie
      exact hie rfl
    · rw [ciStartsWith_take hci]
      exact halt
    · have hlen : (((t.dropWhile isDigitChar).dropWhile isJsWs).take
          alt.length).length = alt.length := by
        rw [List.length_take]
        exact Nat.min_eq_left (ciStartsWith_le_length hci)
      omega

theorem findDuration_some_decomp :
    ∀ (t : List Char) (m : List Char), findDuration t = some m →
      ∃ a rest n, t = a ++ rest ∧ matchDurationAt rest = some n ∧
        m = rest.take n := by
  intro t
  induction t with
  | nil => intro m h; cases h
  | cons c ts ih =>
    intro m h
    cases hm : matchDurationAt (c :: ts) with
    | some n =>
      have : findDuration (c :: ts) = some ((c :: ts).take n) := by
        simp [findDuration, hm]
      rw [this] at h
      exact ⟨[], c :: ts, n, rfl, hm, (Option.some.inj h).symm⟩
    | none =>
      have hred : findDuration (c :: ts) = findDuration ts := by
        simp [findDuration, hm]
      rw [hred] at h
      obtain ⟨a, rest, n, hsplit, hmatch, hm2⟩ := ih m h
      exact ⟨c :: a, rest, n, by rw [List.cons_append, hsplit], hmatch, hm2⟩

theorem data_append (x y : String) : (x ++ y).data = x.data ++ y.data := rfl

/-- Claim C4: the richer composer's timebox — the situation contains a digit
run followed (after optional whitespace) by a minute/hour unit word, matched
case-insensitively, exactly when the scanner finds a match; when it does, the
heading names the matched substring verbatim (it also occurs verbatim in the
situation), and when it does not, the heading names "30 minutes". -/
theorem c4_timebox (s : String) :
    (HasDurationPattern s.data ↔ (findDuration s.data).isSome = true) ∧
    (∀ m, findDuration s.data = some m →
      timeboxOf s = String.mk m ∧ containsCL s.data m = true ∧
      containsCL (headingLine (timeboxOf s)).data m = true) ∧
    (findDuration s.data = none →
      timeboxOf s = "30 minutes" ∧
      containsCL (headingLine (timeboxOf s)).data "30 minutes".data = true) := by
  refine ⟨⟨?_, ?_⟩, ?_, ?_⟩
  · rintro ⟨a, d, w, u, b, ht, hd, hda, hwa, hu⟩
    have ht' : s.data = a ++ (d ++ (w ++ (u ++ b))) := by
      rw [ht]
      simp [List.append_assoc]
    rw [ht']
    exact findDuration_isSome_append a _
      (matchDurationAt_isSome_of_pattern d w u b hd hda hwa hu)
  · intro h
    obtain ⟨m, hm⟩ := Option.isSome_iff_exists.mp h
    obtain ⟨a, rest, n, hsplit, hmatch, -⟩ := findDuration_some_decomp _ _ hm
    obtain ⟨d, w, u, r, hrest, hd, hda, hwa, hu, -⟩ :=
      matchDurationAt_some_decomp rest n hmatch
    exact ⟨a, d, w, u, r, by rw [hsplit, hrest]; simp [List.append_assoc],
      hd, hda, hwa, hu⟩
  · intro m hm
    have htb : timeboxOf s = String.mk m := by
      unfold timeboxOf
      rw [hm]
    refine ⟨htb, ?_, ?_⟩
    · obtain ⟨a, rest, n, hsplit, -, hmtake⟩ := findDuration_some_decomp _ _ hm
      have hdecomp : s.data = a ++ (m ++ rest.drop n) := by
        rw [hsplit, hmtake, List.take_append_drop]
      rw [hdecomp, ← List.append_assoc]
      exact containsCL_of_middle a m (rest.drop n)
    · rw [htb]
      have h1 : (headingLine (String.mk m)).data =
          ("Next Best Step (".data ++ m) ++ "):".data := by
        unfold headingLine
        rw [data_append, data_append]
      rw [h1]
      exact containsCL_of_middle "Next Best Step (".data m "):".data
  · intro hn
    have htb : timeboxOf s = "30 minutes" := by
      unfold timeboxOf
      rw [hn]
    refine ⟨htb, ?_⟩
    rw [htb]
    decide

/-- Claim C4 witness: "I have 2 hours before the launch" yields the "2 hours"
timebox (named in the heading), and a duration-free situation yields the
"30 minutes" default. -/
theorem c4_timebox_witness :
    timeboxOf "I have 2 hours before the launch" = "2 hours" ∧
    containsCL (headingLine (timeboxOf "I have 2 hours before the launch")).data
      "2 hours".data = true ∧
    timeboxOf "ship the landing page" = "30 minutes" := by
  have h2 := (c4_timebox "I have 2 hours before the launch").2.1 "2 hours".data
    (by decide)
  exact ⟨h2.1, h2.2.2, ((c4_timebox "ship the landing page").2.2 (by decide)).1⟩

/-! String non-emptiness and distinctness helpers for the composer lines. -/

theorem ne_empty_of_head?_some (s : String) (c : Char)
    (h : s.data.head? = some c) : s ≠ "" := by
  intro he
  rw [he] at h
  exact Option.noConfusion h

theorem str_ne_of_head (s t : String) (c d : Char) (hs : s.data.head? = some c)
    (ht : t.data.head? = some d) (hcd : c ≠ d) : s ≠ t := by
  intro he
  rw [he, ht] at hs
  exact hcd ((Option.some.inj hs).symm)

/-- The composed `detailsLines` after `.filter(Boolean)`: heading, step,
constraints line, the optional desired-outcome line, and the done line (the
empty-string separators are falsy and dropped). -/
theorem detailsLines_eq (a : NextBestStepArgs) :
    detailsLines a =
      [headingLine (timeboxOf a.situation), stepText (timeboxOf a.situation),
       "Constraints: " ++ resolvedConstraints a] ++
      (if desiredTrimmed a = "" then []
       else ["Desired outcome: " ++ desiredTrimmed a]) ++
      [finishLineText] := by
  have h1 : headingLine (timeboxOf a.situation) ≠ "" :=
    ne_empty_of_head?_some _ 'N' rfl
  have h2 : stepText (timeboxOf a.situation) ≠ "" :=
    ne_empty_of_head?_some _ 'S' rfl
  have h3 : "Constraints: " ++ resolvedConstraints a ≠ "" :=
    ne_empty_of_head?_some _ 'C' rfl
  have h4 : finishLineText ≠ "" := ne_empty_of_head?_some _ 'D' rfl
  have h5 : "Desired outcome: " ++ desiredTrimmed a ≠ "" :=
    ne_empty_of_head?_some _ 'D' rfl
  by_cases hd : desiredTrimmed a = ""
  · simp [detailsLines, rawDetailsLines, hd, h1, h2, h3, h4]
  · simp [detailsLines, rawDetailsLines, hd, h1, h2, h3, h4, h5]

theorem str_ne_of_second (s t : String) (c d : Char) (hs : s.data[1]? = some c)
    (ht : t.data[1]? = some d) (hcd : c ≠ d) : s ≠ t := by
  intro he
  rw [he, ht] at hs
  exact hcd ((Option.some.inj hs).symm)

theorem containsCL_append_right (x y p : List Char)
    (h : containsCL y p = true) : containsCL (x ++ y) p = true := by
  induction x with
  | nil => exact h
  | cons c cs ih =>
    have hred : containsCL (c :: (cs ++ y)) p =
        (startsWithCL p (c :: (cs ++ y)) || containsCL (cs ++ y) p) := rfl
    simp only [List.cons_append, hred, Bool.or_eq_true]
    exact Or.inr ih

theorem stepText_data (tb : String) :
    (stepText tb).data = ("Set a ".data ++ tb.data) ++ stepTail.data := by
  unfold stepText stepTail
  rw [data_append, data_append]

theorem stepText_contains_options (tb : String) :
    containsCL (stepText tb).data optionA.data = true ∧
    containsCL (stepText tb).data optionB.data = true ∧
    containsCL (stepText tb).data optionC.data = true := by
  rw [stepText_data]
  exact ⟨containsCL_append_right _ _ _ (by decide),
    containsCL_append_right _ _ _ (by decide),
    containsCL_append_right _ _ _ (by decide)⟩

/-- Claim C5 counterexample: for the plain situation "x" the rendered details
contain all three fixed draft options verbatim — options (a), (b) and (c)
each occur — so the output does not contain exactly ONE of the three fixed
draft options; what is unique is the single step instruction offering them. -/
theorem c5_composer_counterexample :
    containsCL (detailsOf ⟨"x", none, none⟩).data optionA.data = true ∧
    containsCL (detailsOf ⟨"x", none, none⟩).data optionB.data = true ∧
    containsCL (detailsOf ⟨"x", none, none⟩).data optionC.data = true := by
  refine ⟨?_, ?_, ?_⟩ <;> decide

/-- Claim C5 (amended): the rendered details are exactly a heading naming the
timebox, the single hard-coded ugly-first-draft step — occurring exactly once
and offering the three fixed options verbatim — a constraints line
(defaulting to the fixed sentence when constraints are absent or blank after
trimming), a desired-outcome line present exactly when desired_outcome is
provided and nonblank, and the fixed done-criterion line; the situation
influences the output only through the detected timebox, so the composer
never enumerates a user-supplied list of alternatives. -/
theorem c5_composer_structure (a : NextBestStepArgs) :
    detailsLines a =
      [headingLine (timeboxOf a.situation), stepText (timeboxOf a.situation),
       "Constraints: " ++ resolvedConstraints a] ++
      (if desiredTrimmed a = "" then []
       else ["Desired outcome: " ++ desiredTrimmed a]) ++
      [finishLineText] ∧
    detailsOf a = joinSep "\n" (detailsLines a) ∧
    (trimJs ((a.constraints.getD "").data) = [] →
      resolvedConstraints a = defaultConstraints) ∧
    (("Desired outcome: " ++ desiredTrimmed a) ∈ detailsLines a ↔
      ¬ desiredTrimmed a = "") ∧
    (detailsLines a).count (stepText (timeboxOf a.situation)) = 1 ∧
    containsCL (stepText (timeboxOf a.situation)).data optionA.data = true ∧
    containsCL (stepText (timeboxOf a.situation)).data optionB.data = true ∧
    containsCL (stepText (timeboxOf a.situation)).data optionC.data = true ∧
    (∀ s2 : String, timeboxOf s2 = timeboxOf a.situation →
      detailsLines { a with situation := s2 } = detailsLines a) := by
  have hstep_ne_heading : stepText (timeboxOf a.situation) ≠
      headingLine (timeboxOf a.situation) :=
    str_ne_of_head (stepText (timeboxOf a.situation))
      (headingLine (timeboxOf a.situation)) 'S' 'N' rfl rfl (by decide)
  have hstep_ne_con : stepText (timeboxOf a.situation) ≠
      ("Constraints: " ++ resolvedConstraints a) :=
    str_ne_of_head (stepText (timeboxOf a.situation))
      ("Constraints: " ++ resolvedConstraints a) 'S' 'C' rfl rfl (by decide)
  have hstep_ne_des : stepText (timeboxOf a.situation) ≠
      ("Desired outcome: " ++ desiredTrimmed a) :=
    str_ne_of_head (stepText (timeboxOf a.situation))
      ("Desired outcome: " ++ desiredTrimmed a) 'S' 'D' rfl rfl (by decide)
  have hstep_ne_fin : stepText (timeboxOf a.situation) ≠ finishLineText :=
    str_ne_of_head (stepText (timeboxOf a.situation)) finishLineText
      'S' 'D' rfl rfl (by decide)
  have hopts := stepText_contains_options (timeboxOf a.situation)
  refine ⟨detailsLines_eq a, rfl, ?_, ?_, ?_, hopts.1, hopts.2.1, hopts.2.2, ?_⟩
  · intro htrim
    unfold resolvedConstraints
    rw [htrim]
    rfl
  · rw [detailsLines_eq a]
    by_cases hd : desiredTrimmed a = ""
    · rw [if_pos hd]
      have hda : ("Desired outcome: " ++ desiredTrimmed a) ≠
          headingLine (timeboxOf a.situation) :=
        str_ne_of_head ("Desired outcome: " ++ desiredTrimmed a)
          (headingLine (timeboxOf a.situation)) 'D' 'N' rfl rfl (by decide)
      have hdb : ("Desired outcome: " ++ desiredTrimmed a) ≠
          stepText (timeboxOf a.situation) :=
        str_ne_of_head ("Desired outcome: " ++ desiredTrimmed a)
          (stepText (timeboxOf a.situation)) 'D' 'S' rfl rfl (by decide)
      have hdc : ("Desired outcome: " ++ desiredTrimmed a) ≠
          ("Constraints: " ++ resolvedConstraints a) :=
        str_ne_of_head ("Desired outcome: " ++ desiredTrimmed a)
          ("Constraints: " ++ resolvedConstraints a) 'D' 'C' rfl rfl (by decide)
      have hdf : ("Desired outcome: " ++ desiredTrimmed a) ≠ finishLineText :=
        str_ne_of_second ("Desired outcome: " ++ desiredTrimmed a)
          finishLineText 'e' 'o' rfl rfl (by decide)
      constructor
      · intro hmem
        simp only [List.append_nil, List.mem_append, List.mem_cons,
          List.not_mem_nil, or_false, List.mem_singleton] at hmem
        rcases hmem with (h | h | h) | h
        · exact absurd h hda
        · exact absurd h hdb
        · exact absurd h hdc
        · exact absurd h hdf
      · intro hne
        exact absurd hd hne
    · rw [if_neg hd]
      constructor
      · intro _
        exact hd
      · intro _
        simp
  · rw [detailsLines_eq a]
    by_cases hd : desiredTrimmed a = ""
    · rw [if_pos hd]
      simp [List.count_append, List.count_cons, beq_iff_eq,
        hstep_ne_heading, hstep_ne_con, hstep_ne_fin]
    · rw [if_neg hd]
      simp [List.count_append, List.count_cons, beq_iff_eq,
        hstep_ne_heading, hstep_ne_con, hstep_ne_des, hstep_ne_fin]
  · intro s2 h
    have hc : resolvedConstraints { a with situation := s2 } =
        resolvedConstraints a := rfl
    have hdt : desiredTrimmed { a with situation := s2 } = desiredTrimmed a := rfl
    rw [detailsLines_eq, detailsLines_eq, hc, hdt]
    have hs : ({ a with situation := s2 } : NextBestStepArgs).situation = s2 := rfl
    rw [hs, h]

/-- Claim C5 witness: with situation "need it in 45 min", blank constraints
and desired outcome " momentum ", the constraints line falls back to the
default sentence, the desired-outcome line is present, and the step occurs
exactly once. -/
theorem c5_composer_structure_witness :
    resolvedConstraints ⟨"need it in 45 min", some "   ", some " momentum "⟩ =
      defaultConstraints ∧
    ("Desired outcome: " ++
        desiredTrimmed ⟨"need it in 45 min", some "   ", some " momentum "⟩) ∈
      detailsLines ⟨"need it in 45 min", some "   ", some " momentum "⟩ ∧
    (detailsLines ⟨"need it in 45 min", some "   ", some " momentum "⟩).count
      (stepText (timeboxOf "need it in 45 min")) = 1 := by
  have h := c5_composer_structure ⟨"need it in 45 min", some "   ", some " momentum "⟩
  exact ⟨h.2.2.1 (by decide), h.2.2.2.1.mpr (by decide), h.2.2.2.2.1⟩

/-- Claim C10: `structuredContent.inputs` echoes the raw call arguments —
situation unchanged, constraints and desired_outcome as the empty string
when absent — so `inputs.constraints` holds the raw (possibly blank) caller
value even when the rendered text used the default constraints sentence. -/
theorem c10_inputs_echo (a : NextBestStepArgs) :
    (nextBestStep a).inputsSituation = a.situation ∧
    (nextBestStep a).inputsConstraints = a.constraints.getD "" ∧
    (nextBestStep a).inputsDesiredOutcome = a.desired_outcome.getD "" ∧
    (a.constraints = none → (nextBestStep a).inputsConstraints = "") ∧
    (a.desired_outcome = none → (nextBestStep a).inputsDesiredOutcome = "") ∧
    (∀ c, a.constraints = some c → trimJs c.data = [] →
      (nextBestStep a).inputsConstraints = c ∧
      resolvedConstraints a = defaultConstraints ∧
      ("Constraints: " ++ defaultConstraints) ∈ detailsLines a) := by
  refine ⟨rfl, rfl, rfl, ?_, ?_, ?_⟩
  · intro h
    rw [show (nextBestStep a).inputsConstraints = a.constraints.getD "" from rfl, h]
    rfl
  · intro h
    rw [show (nextBestStep a).inputsDesiredOutcome = a.desired_outcome.getD ""
      from rfl, h]
    rfl
  · intro c hc htrim
    have hres : resolvedConstraints a = defaultConstraints := by
      unfold resolvedConstraints
      rw [hc]
      simp [htrim]
    refine ⟨?_, hres, ?_⟩
    · rw [show (nextBestStep a).inputsConstraints = a.constraints.getD ""
        from rfl, hc]
      rfl
    · rw [detailsLines_eq a, hres]
      simp

/-- Claim C10 witness: with blank constraints "  " the inputs echo the raw
blank string while the rendered constraints fell back to the default, and an
absent desired_outcome echoes as the empty string. -/
theorem c10_inputs_echo_witness :
    (nextBestStep ⟨"x", some "  ", none⟩).inputsConstraints = "  " ∧
    resolvedConstraints ⟨"x", some "  ", none⟩ = defaultConstraints ∧
    (nextBestStep ⟨"x", some "  ", none⟩).inputsDesiredOutcome = "" := by
  have h := c10_inputs_echo ⟨"x", some "  ", none⟩
  have h6 := h.2.2.2.2.2 "  " rfl (by decide)
  exact ⟨h6.1, h6.2.1, h.2.2.2.2.1 rfl⟩

/-! Order lemmas for the candidate sort. -/

theorem lexLe_refl (l : List Char) : lexLeCL l l = true := by
  induction l with
  | nil => rfl
  | cons c cs ih => simp [lexLeCL, ih]

theorem lexLe_total : ∀ a b : List Char, (lexLeCL a b || lexLeCL b a) = true := by
  intro a
  induction a with
  | nil => intro b; simp [lexLeCL]
  | cons c cs ih =>
    intro b
    cases b with
    | nil => simp [lexLeCL]
    | cons d ds =>
      simp only [lexLeCL, Bool.or_eq_true, Bool.and_eq_true, decide_eq_true_eq,
        beq_iff_eq]
      rcases Nat.lt_trichotomy c.toNat d.toNat with h | h | h
      · exact Or.inl (Or.inl h)
      · have hih := ih ds
        rw [Bool.or_eq_true] at hih
        rcases hih with h2 | h2
        · exact Or.inl (Or.inr ⟨h, h2⟩)
        · exact Or.inr (Or.inr ⟨h.symm, h2⟩)
      · exact Or.inr (Or.inl h)

theorem lexLe_trans : ∀ a b c : List Char, lexLeCL a b = true →
    lexLeCL b c = true → lexLeCL a c = true := by
  intro a
  induction a with
  | nil => intro b c _ _; rfl
  | cons x xs ih =>
    intro b c hab hbc
    cases b with
    | nil => exact absurd hab (by simp [lexLeCL])
    | cons y ys =>
      cases c with
      | nil => exact absurd hbc (by simp [lexLeCL])
      | cons z zs =>
        simp only [lexLeCL, Bool.or_eq_true, Bool.and_eq_true,
          decide_eq_true_eq, beq_iff_eq] at hab hbc ⊢
        rcases hab with h1 | ⟨he1, hr1⟩
        · rcases hbc with h2 | ⟨he2, hr2⟩
          · exact Or.inl (by omega)
          · exact Or.inl (by omega)
        · rcases hbc with h2 | ⟨he2, hr2⟩
          · exact Or.inl (by omega)
          · exact Or.inr ⟨by omega, ih ys zs hr1 hr2⟩

theorem strLeB_refl (a : String) : strLeB a a = true := lexLe_refl a.data

theorem strLeB_total (a b : String) : (strLeB a b || strLeB b a) = true :=
  lexLe_total a.data b.data

theorem strLeB_trans (a b c : String) (hab : strLeB a b = true)
    (hbc : strLeB b c = true) : strLeB a c = true :=
  lexLe_trans a.data b.data c.data hab hbc

theorem mem_insertLe {x a : String} :
    ∀ {l : List String}, a ∈ insertLe x l ↔ a = x ∨ a ∈ l := by
  intro l
  induction l with
  | nil => simp [insertLe]
  | cons y ys ih =>
    simp only [insertLe]
    split
    · simp [List.mem_cons]
    · simp only [List.mem_cons, ih]
      tauto

theorem mem_sortJs {a : String} :
    ∀ {l : List String}, a ∈ sortJs l ↔ a ∈ l := by
  intro l
  induction l with
  | nil => simp [sortJs]
  | cons x xs ih => simp [sortJs, mem_insertLe, ih]

theorem pairwise_insertLe (x : String) :
    ∀ (l : List String), l.Pairwise (fun a b => strLeB a b = true) →
      (insertLe x l).Pairwise (fun a b => strLeB a b = true) := by
  intro l
  induction l with
  | nil => intro _; simp [insertLe]
  | cons y ys ih =>
    intro hp
    rcases List.pairwise_cons.mp hp with ⟨hy, hys⟩
    simp only [insertLe]
    split
    · rename_i hxy
      refine List.pairwise_cons.mpr ⟨?_, hp⟩
      intro z hz
      rcases List.mem_cons.mp hz with rfl | hz2
      · exact hxy
      · exact strLeB_trans x y z hxy (hy z hz2)
    · rename_i hxy
      have hyx : strLeB y x = true := by
        have := strLeB_total x y
        rw [Bool.or_eq_true] at this
        rcases this with h | h
        · exact absurd h hxy
        · exact h
      refine List.pairwise_cons.mpr ⟨?_, ih hys⟩
      intro z hz
      rcases mem_insertLe.mp hz with rfl | hz2
      · exact hyx
      · exact hy z hz2

theorem sortJs_sorted :
    ∀ (l : List String), (sortJs l).Pairwise (fun a b => strLeB a b = true) := by
  intro l
  induction l with
  | nil => simp [sortJs]
  | cons x xs ih => exact pairwise_insertLe x (sortJs xs) ih

theorem widgetCandidates_sorted (fs : AssetsFs) :
    (widgetCandidates fs).Pairwise (fun a b => strLeB a b = true) := by
  unfold widgetCandidates
  exact sortJs_sorted _

theorem pairwise_getLast_le :
    ∀ (l : List String), l.Pairwise (fun a b => strLeB a b = true) →
      ∀ b, l.getLast? = some b → ∀ x ∈ l, strLeB x b = true := by
  intro l
  induction l with
  | nil => intro _ b hb; cases hb
  | cons a rest ih =>
    intro hp b hb x hx
    cases rest with
    | nil =>
      have hba : a = b := by simpa using hb
      have hxa : x = a := by simpa using hx
      rw [hxa, hba]
      exact strLeB_refl b
    | cons a2 rest2 =>
      have hb2 : (a2 :: rest2).getLast? = some b := by
        simpa [List.getLast?_cons_cons] using hb
      rcases List.mem_cons.mp hx with rfl | hx2
      · have hbmem : b ∈ a2 :: rest2 := List.mem_of_getLast?_eq_some hb2
        exact (List.pairwise_cons.mp hp).1 b hbmem
      · exact ih (List.pairwise_cons.mp hp).2 b hb2 x hx2

theorem lookupFile_isSome_of_mem_candidates (fs : AssetsFs) (fb : String)
    (h : fb ∈ widgetCandidates fs) : (lookupFile fs fb).isSome = true := by
  have hmem : fb ∈ (fs.files.map Prod.fst).filter
      (fun f => startsWithCL "kitchen-sink-lite-".data f.data &&
        endsWithCL ".html".data f.data) := by
    unfold widgetCandidates at h
    exact mem_sortJs.mp h
  have hmem2 : fb ∈ fs.files.map Prod.fst := (List.mem_filter.mp hmem).1
  obtain ⟨p, hp, hfb⟩ := List.mem_map.mp hmem2
  unfold lookupFile
  have hfind : (fs.files.find? (fun q => q.1 == fb)).isSome = true :=
    List.find?_isSome.mpr ⟨p, hp, by simp [hfb]⟩
  obtain ⟨q, hq⟩ := Option.isSome_iff_exists.mp hfind
  rw [hq]
  rfl

/-- Claim C6: the richer variant's startup loads the widget HTML once before
the listener binds: it fails with the descriptive assets-directory error when
the directory does not exist, fails with the descriptive widget-HTML error
when neither the directly named file nor any versioned candidate exists —
or when the chosen file is empty, since the falsy `if (!htmlContents)` guard
also catches `""` — and otherwise serves the contents of
"kitchen-sink-lite.html", or, when that file is absent, of the
lexicographically last `kitchen-sink-lite-*.html` candidate; an error means
no listening server value exists. -/
theorem c6_startup_failfast (fs : AssetsFs) :
    (fs.dirExists = false →
      startRicherServer fs = .error assetsMissingMsg) ∧
    (∀ c, fs.dirExists = true → lookupFile fs directName = some c → c ≠ "" →
      startRicherServer fs = .ok ⟨c, true⟩) ∧
    (fs.dirExists = true → lookupFile fs directName = some "" →
      startRicherServer fs = .error widgetMissingMsg) ∧
    (fs.dirExists = true → lookupFile fs directName = none →
      widgetCandidates fs = [] →
      startRicherServer fs = .error widgetMissingMsg) ∧
    (fs.dirExists = true → lookupFile fs directName = none →
      ∀ fb, (widgetCandidates fs).getLast? = some fb →
        fb ∈ widgetCandidates fs ∧
        (∀ x ∈ widgetCandidates fs, strLeB x fb = true) ∧
        ∃ contents, lookupFile fs fb = some contents ∧
          (contents ≠ "" → startRicherServer fs = .ok ⟨contents, true⟩) ∧
          (contents = "" →
            startRicherServer fs = .error widgetMissingMsg)) := by
  refine ⟨?_, ?_, ?_, ?_, ?_⟩
  · intro hdir
    simp [startRicherServer, readWidgetHtml, hdir]
  · intro c hdir hdirect hcne
    simp [startRicherServer, readWidgetHtml, hdir, hdirect, hcne]
  · intro hdir hdirect
    simp [startRicherServer, readWidgetHtml, hdir, hdirect]
  · intro hdir hdirect hcand
    simp [startRicherServer, readWidgetHtml, hdir, hdirect, hcand]
  · intro hdir hdirect fb hlast
    have hmem : fb ∈ widgetCandidates fs := List.mem_of_getLast?_eq_some hlast
    refine ⟨hmem, pairwise_getLast_le _ (widgetCandidates_sorted fs) fb hlast, ?_⟩
    obtain ⟨contents, hcont⟩ := Option.isSome_iff_exists.mp
      (lookupFile_isSome_of_mem_candidates fs fb hmem)
    refine ⟨contents, hcont, ?_, ?_⟩
    · intro hcne
      simp [startRicherServer, readWidgetHtml, hdir, hdirect, hlast, hcont, hcne]
    · intro hceq
      simp [startRicherServer, readWidgetHtml, hdir, hdirect, hlast, hcont, hceq]

/-- Claim C6 witness: a directory holding only versioned candidates serves
the lexicographically last one; the directly named file wins when present;
a missing directory is a startup error; an empty widget HTML file is also a
startup error. -/
theorem c6_startup_failfast_witness :
    startRicherServer ⟨true, [("kitchen-sink-lite-002.html", "B"),
      ("kitchen-sink-lite-010.html", "C"),
      ("kitchen-sink-lite-001.html", "A")]⟩ =
      .ok ⟨"C", true⟩ ∧
    startRicherServer ⟨true, [("kitchen-sink-lite.html", "X"),
      ("kitchen-sink-lite-999.html", "Y")]⟩ = .ok ⟨"X", true⟩ ∧
    startRicherServer ⟨false, []⟩ = .error assetsMissingMsg ∧
    startRicherServer ⟨true, [("kitchen-sink-lite.html", "")]⟩ =
      .error widgetMissingMsg := by
  refine ⟨?_, ?_, ?_, ?_⟩
  · obtain ⟨contents, hcont, hok, -⟩ :=
      ((c6_startup_failfast ⟨true, [("kitchen-sink-lite-002.html", "B"),
        ("kitchen-sink-lite-010.html", "C"),
        ("kitchen-sink-lite-001.html", "A")]⟩).2.2.2.2 rfl (by decide)
        "kitchen-sink-lite-010.html" (by decide)).2.2
    have hc : contents = "C" := by
      have : some contents = some "C" := by rw [← hcont]; decide
      exact Option.some.inj this
    rw [hc] at hok
    exact hok (by decide)
  · exact (c6_startup_failfast ⟨true, [("kitchen-sink-lite.html", "X"),
      ("kitchen-sink-lite-999.html", "Y")]⟩).2.1 "X" rfl (by decide) (by decide)
  · exact (c6_startup_failfast ⟨false, []⟩).1 rfl
  · exact (c6_startup_failfast ⟨true, [("kitchen-sink-lite.html", "")]⟩).2.2.1
      rfl (by decide)
